import Mathlib

/-!
Verification of the batch/history subsystem of the ResumeAI repository.

The embedding follows the TypeScript sources:
* `src/types.ts` for the data model,
* `src/services/historyService.ts` for the history store,
* `src/services/geminiService.ts` for the analysis client,
* the root App component (`handleBatchAnalyze`) for the batch orchestrator,
* the settings modal (`handleTemperatureChange` / `handleSave`) for the
  temperature setting.

Browser facilities are modelled explicitly: `localStorage` slots become
values threaded through the functions, the external model provider becomes
an oracle parameter, and `JSON.stringify`/`JSON.parse` of the history slot
is modelled at the round-trip level (see `HistorySlot`).
-/

namespace ResumeAI

/- ### Data model, from `src/types.ts` -/

inductive HiringRecommendation
  | HIRE
  | MAYBE
  | REJECT
deriving DecidableEq, Repr

structure PersonalityProfile where
  archetype : String
  traits : List String
  communicationStyle : String
  cultureFit : String
deriving DecidableEq, Repr

structure AnalysisResult where
  candidateName : String
  score : Int
  headline : String
  summary : String
  pros : List String
  cons : List String
  skillsGap : List String
  personality : PersonalityProfile
  recommendation : HiringRecommendation
  reasoning : String
deriving DecidableEq, Repr

inductive FileType
  | text
  | image
  | pdf
deriving DecidableEq, Repr

structure UploadedFile where
  id : String
  type : FileType
  content : String
  name : String
  mimeType : Option String
deriving DecidableEq, Repr

inductive AnalysisStatus
  | idle
  | analyzing
  | completed
  | error
deriving DecidableEq, Repr

structure BatchItem where
  file : UploadedFile
  status : AnalysisStatus
  result : Option AnalysisResult
  error : Option String
deriving DecidableEq, Repr

structure JobContext where
  title : String
  description : String
deriving DecidableEq, Repr

structure HistorySession where
  id : String
  timestamp : Nat
  jobTitle : String
  jobDescription : String
  items : List BatchItem
  totalCandidates : Nat
  averageScore : Int
deriving DecidableEq, Repr

/- ### History store, from `src/services/historyService.ts`

The single `localStorage` slot `resume_ai_history_v1` is modelled at the
JSON round-trip level: `HistorySlot.jsonOf l` stands for the slot holding
`JSON.stringify l` (which `JSON.parse` reads back as `l`), `corrupt raw`
stands for a stored string that `JSON.parse` rejects, and `absent` for a
missing key.  Whether a `localStorage.setItem` write throws a quota error
is abstracted by a `writeFails` oracle over the payload being written. -/

inductive HistorySlot
  | absent
  | corrupt (raw : String)
  | jsonOf (sessions : List HistorySession)
deriving DecidableEq, Repr

/-- `getHistory` (`historyService.ts` lines 56-64): reads the slot, returning
`[]` when the key is absent, and `[]` via the catch block when `JSON.parse`
throws on a corrupt string. -/
def getHistory : HistorySlot → List HistorySession
  | .absent => []
  | .corrupt _ => []
  | .jsonOf l => l

/-- JS `Math.round x = ⌊x + 1/2⌋` (exact on the magnitudes occurring here). -/
def jsRound (q : ℚ) : Int := Int.floor (q + 1/2)

/-- The filter `i.status === 'completed' && i.result` of `saveSession`. -/
def isCompletedWithResult (i : BatchItem) : Bool :=
  i.status == AnalysisStatus.completed && i.result.isSome

def completedItems (items : List BatchItem) : List BatchItem :=
  items.filter isCompletedWithResult

/-- One summand of the `reduce`: `curr.result?.score || 0`. -/
def scoreOf (curr : BatchItem) : Int :=
  (curr.result.map AnalysisResult.score).getD 0

/-- `completedItems.reduce((acc, curr) => acc + (curr.result?.score || 0), 0)`. -/
def totalScore (items : List BatchItem) : Int :=
  (completedItems items).foldl (fun acc curr => acc + scoreOf curr) 0

/-- The session object built by `saveSession` (lines 15-24); `Date.now()` is
passed in as `now`. -/
def sessionOf (now : Nat) (job : JobContext) (items : List BatchItem) : HistorySession :=
  { id := toString now
    timestamp := now
    jobTitle := job.title
    jobDescription := job.description
    items := items
    totalCandidates := items.length
    averageScore := jsRound ((totalScore items : ℚ) / ((completedItems items).length : ℚ)) }

/-- `{ ...item, file: { ...item.file, content: '' } }` from the quota fallback. -/
def stripFileContent (item : BatchItem) : BatchItem :=
  { item with file := { item.file with content := "" } }

/-- The `lightSession` of the quota fallback (lines 38-44). -/
def lightSessionOf (s : HistorySession) : HistorySession :=
  { s with items := s.items.map stripFileContent }

structure SaveOutcome where
  returned : Option HistorySession
  slot : HistorySlot
deriving DecidableEq, Repr

/-- `saveSession` (`historyService.ts` lines 5-54).  Returns the value the
function returns together with the slot contents afterwards.  The outer
catch block turns any failure of the retried write into a `null` return
with the slot untouched. -/
def saveSession (writeFails : List HistorySession → Bool) (now : Nat)
    (job : JobContext) (items : List BatchItem) (slot : HistorySlot) : SaveOutcome :=
  let completed := completedItems items
  if completed.length = 0 then { returned := none, slot := slot }
  else
    let session := sessionOf now job items
    let existingHistory := getHistory slot
    let newHistory := (session :: existingHistory).take 20
    if writeFails newHistory then
      let lightSession := lightSessionOf session
      let lightHistory := (lightSession :: existingHistory).take 20
      if writeFails lightHistory then { returned := none, slot := slot }
      else { returned := some session, slot := .jsonOf lightHistory }
    else { returned := some session, slot := .jsonOf newHistory }

/-- `clearHistory` (lines 66-68). -/
def clearHistory (_slot : HistorySlot) : HistorySlot := .absent

/-- `deleteSession` (lines 70-75). -/
def deleteSession (id : String) (slot : HistorySlot) : List HistorySession × HistorySlot :=
  let newHistory := (getHistory slot).filter (fun s => s.id != id)
  (newHistory, .jsonOf newHistory)

/- ### Analysis client and settings, from `src/services/geminiService.ts`
   and the settings modal (`ApiKeyModal`).

JS numbers entering the temperature computation are modelled as
`Option ℚ`, with `none` standing for `NaN`; `Math.min` and `Math.max`
propagate `NaN`. -/

/-- JS `Math.min` on possibly-`NaN` numbers. -/
def jsMin (a b : Option ℚ) : Option ℚ :=
  match a, b with
  | some x, some y => some (min x y)
  | _, _ => none

/-- JS `Math.max` on possibly-`NaN` numbers. -/
def jsMax (a b : Option ℚ) : Option ℚ :=
  match a, b with
  | some x, some y => some (max x y)
  | _, _ => none

/-- `getTemperature` (`geminiService.ts` lines 10-14):
`storedTemp ? Math.max(0, Math.min(1, parseFloat(storedTemp))) : 0.4`.
The argument models `localStorage.getItem('gemini_temperature')` composed
with the `storedTemp ?` truthiness test and `parseFloat`: outer `none`
covers a missing key or the empty string (both falsy), and `some v` a
non-empty stored string whose `parseFloat` result is `v` (`some q` for a
number `q`, `none` for `NaN`). -/
def getTemperature (storedTemp : Option (Option ℚ)) : Option ℚ :=
  match storedTemp with
  | none => some 0.4
  | some v => jsMax (some 0) (jsMin (some 1) v)

/-- `handleTemperatureChange` of the settings modal (lines 131-136): a
`NaN` input is ignored (`isNaN` guard, state unchanged), a numeric input
is clamped by `Math.max(0, Math.min(1, value))`. -/
def handleTemperatureChange (current : ℚ) (value : Option ℚ) : ℚ :=
  match value with
  | none => current
  | some v => max 0 (min 1 v)

/-- JS `q.toFixed 1` for the nonnegative in-range values occurring here:
round to one decimal place (ties away from zero). -/
def toFixed1 (q : ℚ) : ℚ := (Int.floor (10 * q + 1/2) : ℚ) / 10

/-- `handleSave` of the settings modal (line 121) persists
`temperature.toFixed(1)` under `gemini_temperature`; the persisted decimal
string is modelled by its numeric value. -/
def persistTemperature (temperature : ℚ) : ℚ := toFixed1 temperature

/-- `v` is an actual number lying in `[0, 1]` (in particular not `NaN`). -/
def inUnit (v : Option ℚ) : Prop := ∃ q, v = some q ∧ 0 ≤ q ∧ q ≤ 1

/-- One content part of a provider request (text or inline binary). -/
inductive RequestPart
  | text (s : String)
  | inlineData (mimeType : String) (data : String)
deriving DecidableEq, Repr

/-- JS `v || dflt` on an optional string (the empty string is falsy). -/
def jsOrString (v : Option String) (dflt : String) : String :=
  match v with
  | some s => if s = "" then dflt else s
  | none => dflt

structure ExtractOutcome where
  result : Except String String
  requests : List (List RequestPart)
deriving Repr

/-- `extractResumeRawText` (`geminiService.ts` lines 253-289).
`getAIClient()` runs first and throws `API_KEY_MISSING` when no key is
stored; only then is the text-kind passthrough checked.  The external
`ai.models.generateContent` call is the oracle `provider`, receiving the
content parts and the temperature and returning `response.text`
(`some`/`none` for present/undefined) or a thrown error; `requests`
records each provider call issued. -/
def extractResumeRawText (apiKey : Option String) (storedTemp : Option (Option ℚ))
    (provider : List RequestPart → Option ℚ → Except String (Option String))
    (file : UploadedFile) : ExtractOutcome :=
  match apiKey with
  | none => { result := .error "API_KEY_MISSING", requests := [] }
  | some _ =>
    let temperature := getTemperature storedTemp
    if file.type = FileType.text then
      { result := .ok file.content, requests := [] }
    else
      let promptText := "请从以下文件中提取所有可读文本内容，并以纯文本格式返回。不要进行任何总结、分析或评论，只返回原始文本。"
      let mime := jsOrString file.mimeType
        (if file.type = FileType.pdf then "application/pdf" else "image/png")
      let parts := [RequestPart.text promptText, RequestPart.inlineData mime file.content]
      match provider parts temperature with
      | .ok v =>
          { result := .ok (jsOrString v "未能从文件中提取到任何文本。"), requests := [parts] }
      | .error e => { result := .error e, requests := [parts] }

/- ### Batch orchestrator, from `handleBatchAnalyze` in the root App
   component (`src/unnamed/part_000`, lines 89-156).

`analyzeResume(item.file, jobContext)` is an awaited external call; its
outcome for the i-th loop iteration is supplied by an oracle
`oracle : Nat → AnalyzeOutcome` (`err m` models a thrown error with
message `m`; the thrown `API_KEY_MISSING` of `getAIClient` is
`err "API_KEY_MISSING"`).  Each `setBatchItems` call appends the new
React list state to `trace`, so intermediate progress is observable; the
local array `processedItems` is threaded separately, exactly as in the
source. -/

inductive AnalyzeOutcome
  | ok (r : AnalysisResult)
  | err (msg : String)
deriving DecidableEq, Repr

/-- `files.map(f => ({ file: f, status: 'idle', result: null }))` (lines 102-106). -/
def initialItems (files : List UploadedFile) : List BatchItem :=
  files.map fun f => { file := f, status := .idle, result := none, error := none }

/-- `prev.map(p => p.file.id === fid ? { ...p, status: 'analyzing' } : p)` (line 120). -/
def setAnalyzing (items : List BatchItem) (fid : String) : List BatchItem :=
  items.map fun p => if p.file.id = fid then { p with status := .analyzing } else p

/-- `prev.map(p => p.file.id === fid ? it : p)` (lines 127 and 142). -/
def setItemById (items : List BatchItem) (fid : String) (it : BatchItem) : List BatchItem :=
  items.map fun p => if p.file.id = fid then it else p

structure LoopResult where
  trace : List (List BatchItem)
  batch : List BatchItem
  processed : List BatchItem
  calls : List Nat
  aborted : Bool
deriving DecidableEq, Repr

/-- The `for` loop of `handleBatchAnalyze` (lines 116-145), processing the
remaining `initialItems` suffix `rest` starting at index `i`, with the
current React list state `batch` and the local tracker `processed`.
`calls` records the indices at which `analyzeResume` was invoked;
`aborted` records the `API_KEY_MISSING` early `return`. -/
def processFrom (oracle : Nat → AnalyzeOutcome) :
    Nat → List BatchItem → List BatchItem → List BatchItem → LoopResult
  | _, batch, processed, [] =>
      { trace := [], batch := batch, processed := processed, calls := [], aborted := false }
  | i, batch, processed, item :: rest =>
      let b1 := setAnalyzing batch item.file.id
      match oracle i with
      | .ok r =>
          let updatedItem : BatchItem := { item with status := .completed, result := some r }
          let b2 := setItemById b1 item.file.id updatedItem
          let res := processFrom oracle (i+1) b2 (processed.set i updatedItem) rest
          { trace := b1 :: b2 :: res.trace, batch := res.batch, processed := res.processed,
            calls := i :: res.calls, aborted := res.aborted }
      | .err m =>
          if m = "API_KEY_MISSING" then
            { trace := [b1], batch := b1, processed := processed, calls := [i], aborted := true }
          else
            let errorItem : BatchItem := { item with status := .error, error := some m }
            let b2 := setItemById b1 item.file.id errorItem
            let res := processFrom oracle (i+1) b2 (processed.set i errorItem) rest
            { trace := b1 :: b2 :: res.trace, batch := res.batch, processed := res.processed,
              calls := i :: res.calls, aborted := res.aborted }

structure BatchRun where
  ran : Bool
  trace : List (List BatchItem)
  finalBatch : List BatchItem
  processed : List BatchItem
  calls : List Nat
  aborted : Bool
  settingsOpened : Bool
  hasApiKeyAfter : Bool
  saveCalled : Bool
  savedSession : Option HistorySession
  slot : HistorySlot
  isProcessingAfter : Bool
deriving Repr

/-- `handleBatchAnalyze` (lines 89-156).  `batch0` is the `batchItems`
React state before the call (left unchanged by the two early returns);
`saveCalled` records whether `saveSession` was invoked at all, as opposed
to invoked but returning `null`. -/
def handleBatchAnalyze (hasApiKey : Bool) (batch0 : List BatchItem)
    (files : List UploadedFile) (job : JobContext)
    (oracle : Nat → AnalyzeOutcome) (writeFails : List HistorySession → Bool)
    (now : Nat) (slot : HistorySlot) : BatchRun :=
  if hasApiKey = false then
    { ran := false, trace := [], finalBatch := batch0, processed := [], calls := [],
      aborted := false, settingsOpened := true, hasApiKeyAfter := hasApiKey,
      saveCalled := false, savedSession := none, slot := slot, isProcessingAfter := false }
  else if files.length = 0 ∨ job.description = "" then
    { ran := false, trace := [], finalBatch := batch0, processed := [], calls := [],
      aborted := false, settingsOpened := false, hasApiKeyAfter := hasApiKey,
      saveCalled := false, savedSession := none, slot := slot, isProcessingAfter := false }
  else
    let init := initialItems files
    let res := processFrom oracle 0 init init init
    if res.aborted then
      { ran := true, trace := init :: res.trace, finalBatch := res.batch,
        processed := res.processed, calls := res.calls, aborted := true,
        settingsOpened := true, hasApiKeyAfter := false, saveCalled := false,
        savedSession := none, slot := slot, isProcessingAfter := false }
    else
      let out := saveSession writeFails now job res.processed slot
      { ran := true, trace := init :: res.trace, finalBatch := res.batch,
        processed := res.processed, calls := res.calls, aborted := false,
        settingsOpened := false, hasApiKeyAfter := hasApiKey, saveCalled := true,
        savedSession := out.returned, slot := out.slot, isProcessingAfter := false }

/- Abstract closed form of the loop, used to reason about `processFrom`
under the unique-file-id invariant. -/

/-- The terminal item the loop produces at index `i` for initial item
`item` (when the outcome is not the credential abort). -/
def expectedDone (oracle : Nat → AnalyzeOutcome) (i : Nat) (item : BatchItem) : BatchItem :=
  match oracle i with
  | .ok r => { item with status := .completed, result := some r }
  | .err m => { item with status := .error, error := some m }

/-- Terminal items for a whole suffix starting at index `i`. -/
def finishAll (oracle : Nat → AnalyzeOutcome) : Nat → List BatchItem → List BatchItem
  | _, [] => []
  | i, item :: rest => expectedDone oracle i item :: finishAll oracle (i+1) rest

/-- The loop with list states kept in `done ++ position ++ rest` form. -/
def specRun (oracle : Nat → AnalyzeOutcome) :
    Nat → List BatchItem → List BatchItem → LoopResult
  | _, done, [] =>
      { trace := [], batch := done, processed := done, calls := [], aborted := false }
  | i, done, item :: rest =>
      match oracle i with
      | .ok r =>
          let u : BatchItem := { item with status := .completed, result := some r }
          let res := specRun oracle (i+1) (done ++ [u]) rest
          { trace := (done ++ { item with status := .analyzing } :: rest) ::
              (done ++ u :: rest) :: res.trace,
            batch := res.batch, processed := res.processed,
            calls := i :: res.calls, aborted := res.aborted }
      | .err m =>
          if m = "API_KEY_MISSING" then
            { trace := [done ++ { item with status := .analyzing } :: rest],
              batch := done ++ { item with status := .analyzing } :: rest,
              processed := done ++ item :: rest, calls := [i], aborted := true }
          else
            let u : BatchItem := { item with status := .error, error := some m }
            let res := specRun oracle (i+1) (done ++ [u]) rest
            { trace := (done ++ { item with status := .analyzing } :: rest) ::
                (done ++ u :: rest) :: res.trace,
              batch := res.batch, processed := res.processed,
              calls := i :: res.calls, aborted := res.aborted }

/-- An item in a terminal state. -/
def isTerminal (it : BatchItem) : Bool :=
  it.status == AnalysisStatus.completed || it.status == AnalysisStatus.error

/-- A list state in which at most one item is `analyzing`, and an
`analyzing` item is preceded only by terminal items (so item `k+1` is
never `analyzing` before item `k` is terminal). -/
def oneAnalyzingOrdered (s : List BatchItem) : Prop :=
  (s.filter fun it => it.status == AnalysisStatus.analyzing).length ≤ 1 ∧
  ∀ j t (hj : j < s.length) (ht : t < j),
    (s.get ⟨j, hj⟩).status = AnalysisStatus.analyzing →
    isTerminal (s.get ⟨t, Nat.lt_trans ht hj⟩) = true

/-- The file ids of a batch list. -/
def fileIds (l : List BatchItem) : List String :=
  l.map fun it => it.file.id

/- Concrete sample data reused by witness theorems. -/

def exPersonality : PersonalityProfile :=
  { archetype := "builder", traits := ["curious"], communicationStyle := "direct",
    cultureFit := "good" }

def exResult (s : Int) : AnalysisResult :=
  { candidateName := "cand", score := s, headline := "headline", summary := "summary",
    pros := [], cons := [], skillsGap := [], personality := exPersonality,
    recommendation := HiringRecommendation.MAYBE, reasoning := "because" }

def exFile (fid : String) (content : String) : UploadedFile :=
  { id := fid, type := FileType.text, content := content, name := fid ++ ".txt",
    mimeType := none }

def exCompleted (fid : String) (content : String) (s : Int) : BatchItem :=
  { file := exFile fid content, status := AnalysisStatus.completed,
    result := some (exResult s), error := none }

def exIdle (fid : String) : BatchItem :=
  { file := exFile fid "text", status := AnalysisStatus.idle, result := none, error := none }

def exJob : JobContext :=
  { title := "Engineer", description := "builds reliable systems" }

def wfNever : List HistorySession → Bool := fun _ => false

def wfContent : List HistorySession → Bool :=
  fun l => l.any fun s => s.items.any fun it => it.file.content != ""

def exItemsOne : List BatchItem := [exCompleted "a1" "" 80]

def exItems3 : List BatchItem :=
  [exCompleted "a1" "" 80, exCompleted "a2" "" 60, exCompleted "a3" "" 100]

def exItemsC3 : List BatchItem := [exCompleted "a1" "full resume body" 50]

def exTextFile : UploadedFile := exFile "t1" "raw resume text"

def provNone : List RequestPart → Option ℚ → Except String (Option String) :=
  fun _ _ => .ok none

def exFiles2 : List UploadedFile := [exFile "a1" "alpha", exFile "a2" "beta"]

def exFiles3 : List UploadedFile :=
  [exFile "a1" "alpha", exFile "a2" "beta", exFile "a3" "gamma"]

def orcOk : Nat → AnalyzeOutcome := fun _ => .ok (exResult 70)

def orcMiss1 : Nat → AnalyzeOutcome :=
  fun i => if i = 0 then .ok (exResult 70) else .err "API_KEY_MISSING"

/- Helper lemmas about `saveSession`. -/

theorem foldl_add_scoreOf (l : List BatchItem) (a : Int) :
    l.foldl (fun acc curr => acc + scoreOf curr) a = a + (l.map scoreOf).sum := by
  induction l generalizing a with
  | nil => simp
  | cons x xs ih => simp [List.foldl_cons, ih, add_assoc]

theorem totalScore_eq_sum (items : List BatchItem) :
    totalScore items = ((completedItems items).map scoreOf).sum := by
  simp [totalScore, foldl_add_scoreOf]

theorem saveSession_returned_eq (wf : List HistorySession → Bool) (now : Nat)
    (job : JobContext) (items : List BatchItem) (slot : HistorySlot) (s : HistorySession)
    (h : (saveSession wf now job items slot).returned = some s) :
    s = sessionOf now job items := by
  by_cases h0 : (completedItems items).length = 0
  · simp [saveSession, h0] at h
  · by_cases h1 : wf (sessionOf now job items :: (getHistory slot).take 19) = true
    · by_cases h2 : wf (lightSessionOf (sessionOf now job items) :: (getHistory slot).take 19) = true
      · simp [saveSession, h0, h1, h2] at h
      · simp [saveSession, h0, h1, h2] at h
        exact h.symm
    · simp [saveSession, h0, h1] at h
      exact h.symm

/-- C4: if zero items are `completed` with a present result, `saveSession`
returns `null` and leaves the persisted history slot unchanged. -/
theorem saveSession_no_completed_noop (wf : List HistorySession → Bool) (now : Nat)
    (job : JobContext) (items : List BatchItem) (slot : HistorySlot)
    (h : completedItems items = []) :
    saveSession wf now job items slot = { returned := none, slot := slot } := by
  simp [saveSession, h]

theorem saveSession_no_completed_noop_witness :
    saveSession wfNever 1 exJob [exIdle "a1"] HistorySlot.absent =
      { returned := none, slot := HistorySlot.absent } :=
  saveSession_no_completed_noop wfNever 1 exJob [exIdle "a1"] HistorySlot.absent (by decide)

/-- C5: after any successful save the persisted list is the new session
(possibly its content-stripped copy, under the documented quota
degradation) followed by the previously stored sessions truncated to 19,
hence at most 20 sessions; when 20 sessions were stored, exactly 20 remain
with the newest first and the oldest evicted. -/
theorem saveSession_caps_history (wf : List HistorySession → Bool) (now : Nat)
    (job : JobContext) (items : List BatchItem) (slot : HistorySlot) (s : HistorySession)
    (h : (saveSession wf now job items slot).returned = some s) :
    ∃ s2, (s2 = s ∨ s2 = lightSessionOf s) ∧
      (saveSession wf now job items slot).slot =
        HistorySlot.jsonOf (s2 :: (getHistory slot).take 19) ∧
      (s2 :: (getHistory slot).take 19).length ≤ 20 ∧
      ((getHistory slot).length = 20 → (s2 :: (getHistory slot).take 19).length = 20) := by
  have hs := saveSession_returned_eq wf now job items slot s h
  have hlen : ∀ s2 : HistorySession, (s2 :: (getHistory slot).take 19).length ≤ 20 := by
    intro s2
    simp only [List.length_cons, List.length_take]
    omega
  have hlen20 : ∀ s2 : HistorySession, (getHistory slot).length = 20 →
      (s2 :: (getHistory slot).take 19).length = 20 := by
    intro s2 h20
    simp only [List.length_cons, List.length_take, h20]
    omega
  by_cases h0 : (completedItems items).length = 0
  · simp [saveSession, h0] at h
  · by_cases h1 : wf (sessionOf now job items :: (getHistory slot).take 19) = true
    · by_cases h2 : wf (lightSessionOf (sessionOf now job items) :: (getHistory slot).take 19) = true
      · simp [saveSession, h0, h1, h2] at h
      · refine ⟨lightSessionOf (sessionOf now job items), Or.inr (by rw [hs]), ?_, hlen _, hlen20 _⟩
        simp [saveSession, h0, h1, h2]
    · refine ⟨sessionOf now job items, Or.inl hs.symm, ?_, hlen _, hlen20 _⟩
      simp [saveSession, h0, h1]

theorem saveSession_caps_history_witness :
    (saveSession wfNever 2 exJob exItemsOne HistorySlot.absent).slot =
      HistorySlot.jsonOf [sessionOf 2 exJob exItemsOne] := by
  obtain ⟨s2, hs2, hslot, hle, h20⟩ :=
    saveSession_caps_history wfNever 2 exJob exItemsOne HistorySlot.absent
      (sessionOf 2 exJob exItemsOne) rfl
  rcases hs2 with h | h
  · rw [hslot, h]
    rfl
  · rw [hslot, h]
    rfl

/-- C6: for every saved session, `averageScore` is the `Math.round`ed mean
of `score` over exactly the items with status `completed` and a present
result. -/
theorem saveSession_average_score (wf : List HistorySession → Bool) (now : Nat)
    (job : JobContext) (items : List BatchItem) (slot : HistorySlot) (s : HistorySession)
    (h : (saveSession wf now job items slot).returned = some s) :
    s.averageScore =
      jsRound ((((completedItems items).map scoreOf).sum : ℚ) /
        ((completedItems items).length : ℚ)) := by
  have hs := saveSession_returned_eq wf now job items slot s h
  rw [hs]
  show jsRound ((totalScore items : ℚ) / ((completedItems items).length : ℚ)) = _
  rw [totalScore_eq_sum]

theorem saveSession_average_score_witness :
    (sessionOf 3 exJob exItems3).averageScore = 80 := by
  have h := saveSession_average_score wfNever 3 exJob exItems3 HistorySlot.absent
    (sessionOf 3 exJob exItems3) rfl
  rw [h]
  have h1 : ((completedItems exItems3).map scoreOf).sum = 240 := by decide
  have h2 : (completedItems exItems3).length = 3 := by decide
  rw [h1, h2]
  norm_num [jsRound]

/-- C3: when the first persistence write fails on quota, the retried
payload is the new session with `file.content` blanked on every one of its
items (all other fields kept) prepended to the previously stored sessions;
if that stripped write also fails, `saveSession` returns `null` and the
slot is left unchanged. -/
theorem saveSession_quota_fallback (wf : List HistorySession → Bool) (now : Nat)
    (job : JobContext) (items : List BatchItem) (slot : HistorySlot)
    (hne : completedItems items ≠ [])
    (hfail : wf ((sessionOf now job items :: getHistory slot).take 20) = true) :
    (lightSessionOf (sessionOf now job items)).items = items.map stripFileContent ∧
    (∀ it : BatchItem,
      (stripFileContent it).file.content = "" ∧
      (stripFileContent it).file.id = it.file.id ∧
      (stripFileContent it).file.type = it.file.type ∧
      (stripFileContent it).file.name = it.file.name ∧
      (stripFileContent it).file.mimeType = it.file.mimeType ∧
      (stripFileContent it).status = it.status ∧
      (stripFileContent it).result = it.result ∧
      (stripFileContent it).error = it.error) ∧
    (wf ((lightSessionOf (sessionOf now job items) :: getHistory slot).take 20) = false →
      saveSession wf now job items slot =
        { returned := some (sessionOf now job items)
          slot := HistorySlot.jsonOf
            ((lightSessionOf (sessionOf now job items) :: getHistory slot).take 20) }) ∧
    (wf ((lightSessionOf (sessionOf now job items) :: getHistory slot).take 20) = true →
      saveSession wf now job items slot = { returned := none, slot := slot }) := by
  have h0 : ¬ (completedItems items).length = 0 := by
    simpa [List.length_eq_zero] using hne
  have hfail' : wf (sessionOf now job items :: (getHistory slot).take 19) = true := hfail
  refine ⟨rfl, fun it => ⟨rfl, rfl, rfl, rfl, rfl, rfl, rfl, rfl⟩, ?_, ?_⟩
  · intro h2
    have h2' : wf (lightSessionOf (sessionOf now job items) ::
        (getHistory slot).take 19) = false := h2
    simp [saveSession, h0, hfail', h2']
  · intro h2
    have h2' : wf (lightSessionOf (sessionOf now job items) ::
        (getHistory slot).take 19) = true := h2
    simp [saveSession, h0, hfail', h2']

theorem saveSession_quota_fallback_witness :
    saveSession wfContent 7 exJob exItemsC3 HistorySlot.absent =
      { returned := some (sessionOf 7 exJob exItemsC3)
        slot := HistorySlot.jsonOf
          ((lightSessionOf (sessionOf 7 exJob exItemsC3) ::
            getHistory HistorySlot.absent).take 20) } :=
  (saveSession_quota_fallback wfContent 7 exJob exItemsC3 HistorySlot.absent
    (by decide) (by decide)).2.2.1 (by decide)

/-- C10: `getHistory` returns the empty list both when the history key is
absent and when the stored string is not valid JSON; a load failure is
never propagated (the function is total). -/
theorem getHistory_load_failure_safe :
    getHistory HistorySlot.absent = [] ∧
    ∀ raw : String, getHistory (HistorySlot.corrupt raw) = [] :=
  ⟨rfl, fun _ => rfl⟩

theorem getHistory_load_failure_safe_witness :
    getHistory HistorySlot.absent = [] ∧ getHistory (HistorySlot.corrupt "not json") = [] :=
  ⟨getHistory_load_failure_safe.1, getHistory_load_failure_safe.2 "not json"⟩

/- Helper lemmas for the batch orchestrator. -/

theorem set_append_cons {α : Type _} (A : List α) (x b : α) (B : List α) :
    (A ++ x :: B).set A.length b = A ++ b :: B := by
  induction A with
  | nil => rfl
  | cons a t ih => simp [List.set, ih]

theorem map_id_of_ne (l : List BatchItem) (fid : String) (g : BatchItem → BatchItem)
    (h : ∀ p ∈ l, p.file.id ≠ fid) :
    l.map (fun p => if p.file.id = fid then g p else p) = l := by
  induction l with
  | nil => rfl
  | cons a t ih =>
    simp only [List.map_cons]
    rw [if_neg (h a (List.mem_cons_self a t)), ih fun p hp => h p (List.mem_cons_of_mem a hp)]

theorem map_update_of_unique (g : BatchItem → BatchItem) (done rest : List BatchItem)
    (item : BatchItem) (fid : String)
    (hd : ∀ p ∈ done, p.file.id ≠ fid) (hr : ∀ p ∈ rest, p.file.id ≠ fid)
    (hi : item.file.id = fid) :
    (done ++ item :: rest).map (fun p => if p.file.id = fid then g p else p) =
      done ++ g item :: rest := by
  rw [List.map_append, List.map_cons, map_id_of_ne done fid g hd,
    map_id_of_ne rest fid g hr, if_pos hi]

theorem nodup_extract (done rest' : List BatchItem) (item : BatchItem)
    (h : (fileIds (done ++ item :: rest')).Nodup) :
    (∀ p ∈ done, p.file.id ≠ item.file.id) ∧
    (∀ p ∈ rest', p.file.id ≠ item.file.id) ∧
    ∀ u : BatchItem, u.file.id = item.file.id →
      (fileIds ((done ++ [u]) ++ rest')).Nodup := by
  have hsplit : fileIds (done ++ item :: rest') =
      fileIds done ++ item.file.id :: fileIds rest' := by
    simp [fileIds]
  rw [hsplit, List.nodup_append] at h
  obtain ⟨h1, h2, h3⟩ := h
  rw [List.nodup_cons] at h2
  refine ⟨?_, ?_, ?_⟩
  · intro p hp hpe
    exact h3 (hpe ▸ List.mem_map_of_mem (fun it => it.file.id) hp)
      (List.mem_cons_self _ _)
  · intro p hp hpe
    exact h2.1 (hpe ▸ List.mem_map_of_mem (fun it => it.file.id) hp)
  · intro u hu
    have : fileIds ((done ++ [u]) ++ rest') =
        fileIds done ++ item.file.id :: fileIds rest' := by
      simp [fileIds, hu]
    rw [this, List.nodup_append]
    exact ⟨h1, List.nodup_cons.mpr h2, h3⟩

/-- Under unique file ids, the loop as written (id-keyed React updates plus
the index-keyed local tracker, both starting from the same list) coincides
with the `done ++ rest`-structured form `specRun`. -/
theorem processFrom_eq_specRun (oracle : Nat → AnalyzeOutcome) :
    ∀ (rest done : List BatchItem) (i : Nat), done.length = i →
    (fileIds (done ++ rest)).Nodup →
    processFrom oracle i (done ++ rest) (done ++ rest) rest = specRun oracle i done rest := by
  intro rest
  induction rest with
  | nil =>
    intro done i hlen hnod
    simp [processFrom, specRun]
  | cons item rest' ih =>
    intro done i hlen hnod
    obtain ⟨hd, hr, hnext⟩ := nodup_extract done rest' item hnod
    have hb1 : setAnalyzing (done ++ item :: rest') item.file.id =
        done ++ { item with status := .analyzing } :: rest' :=
      map_update_of_unique _ done rest' item item.file.id hd hr rfl
    cases ho : oracle i with
    | ok r =>
      have hb2 : setItemById (done ++ { item with status := .analyzing } :: rest')
          item.file.id { item with status := .completed, result := some r } =
          done ++ { item with status := .completed, result := some r } :: rest' :=
        map_update_of_unique _ done rest' { item with status := .analyzing }
          item.file.id hd hr rfl
      have hset : (done ++ item :: rest').set i
          { item with status := .completed, result := some r } =
          done ++ { item with status := .completed, result := some r } :: rest' := by
        rw [← hlen]
        exact set_append_cons done item _ rest'
      have hrec : processFrom oracle (i+1)
          (done ++ { item with status := .completed, result := some r } :: rest')
          (done ++ { item with status := .completed, result := some r } :: rest') rest' =
          specRun oracle (i+1)
            (done ++ [{ item with status := .completed, result := some r }]) rest' := by
        rw [List.append_cons done _ rest']
        exact ih (done ++ [{ item with status := .completed, result := some r }]) (i+1)
          (by simp [hlen]) (hnext _ rfl)
      simp only [processFrom, specRun, ho, hb1, hb2, hset, hrec]
    | err m =>
      by_cases hm : m = "API_KEY_MISSING"
      · simp only [processFrom, specRun, ho, hb1, if_pos hm]
      · have hb2 : setItemById (done ++ { item with status := .analyzing } :: rest')
            item.file.id { item with status := .error, error := some m } =
            done ++ { item with status := .error, error := some m } :: rest' :=
          map_update_of_unique _ done rest' { item with status := .analyzing }
            item.file.id hd hr rfl
        have hset : (done ++ item :: rest').set i
            { item with status := .error, error := some m } =
            done ++ { item with status := .error, error := some m } :: rest' := by
          rw [← hlen]
          exact set_append_cons done item _ rest'
        have hrec : processFrom oracle (i+1)
            (done ++ { item with status := .error, error := some m } :: rest')
            (done ++ { item with status := .error, error := some m } :: rest') rest' =
            specRun oracle (i+1)
              (done ++ [{ item with status := .error, error := some m }]) rest' := by
          rw [List.append_cons done _ rest']
          exact ih (done ++ [{ item with status := .error, error := some m }]) (i+1)
            (by simp [hlen]) (hnext _ rfl)
        simp only [processFrom, specRun, ho, hb1, hb2, hset, hrec, if_neg hm]

theorem get_append_cons_eq {α : Type _} (A : List α) (x : α) (B : List α)
    (hj : A.length < (A ++ x :: B).length) :
    (A ++ x :: B).get ⟨A.length, hj⟩ = x := by
  simp [List.get_eq_getElem, List.getElem_append_right (le_refl A.length)]

theorem get_append_cons_gt {α : Type _} (A : List α) (x : α) (B : List α) (j : Nat)
    (hj : j < (A ++ x :: B).length) (hgt : A.length < j) (hb : j - A.length - 1 < B.length) :
    (A ++ x :: B).get ⟨j, hj⟩ = B.get ⟨j - A.length - 1, hb⟩ := by
  obtain ⟨t, ht⟩ : ∃ t, j - A.length - 1 = t := ⟨j - A.length - 1, rfl⟩
  have ht1 : j - A.length = t + 1 := by omega
  simp only [List.get_eq_getElem]
  rw [List.getElem_append_right (le_of_lt hgt)]
  simp only [ht]
  simp only [ht1, List.getElem_cons_succ]

theorem get_append_left' {α : Type _} (A B : List α) (j : Nat) (hj : j < A.length)
    (hj2 : j < (A ++ B).length) : (A ++ B).get ⟨j, hj2⟩ = A.get ⟨j, hj⟩ := by
  simp [List.get_eq_getElem, List.getElem_append_left hj]

theorem get_map' {α β : Type _} (f : α → β) (l : List α) (j : Nat)
    (hj : j < (l.map f).length) (hj2 : j < l.length) :
    (l.map f).get ⟨j, hj⟩ = f (l.get ⟨j, hj2⟩) := by
  simp [List.get_eq_getElem]

theorem range'_succ_eq (i n : Nat) : List.range' i (n+1) = i :: List.range' (i+1) n := rfl

theorem initialItems_length (files : List UploadedFile) :
    (initialItems files).length = files.length := by
  simp [initialItems]

theorem initialItems_idle (files : List UploadedFile) :
    ∀ it ∈ initialItems files, it.status = AnalysisStatus.idle := by
  intro it hit
  simp only [initialItems, List.mem_map] at hit
  obtain ⟨f, hf, rfl⟩ := hit
  rfl

theorem initialItems_files (files : List UploadedFile) :
    (initialItems files).map (fun it => it.file) = files := by
  induction files with
  | nil => rfl
  | cons f t ih => simpa [initialItems] using ih

theorem fileIds_initialItems (files : List UploadedFile) :
    fileIds (initialItems files) = files.map fun f => f.id := by
  simp [fileIds, initialItems]

theorem finishAll_length (oracle : Nat → AnalyzeOutcome) :
    ∀ (l : List BatchItem) (i : Nat), (finishAll oracle i l).length = l.length := by
  intro l
  induction l with
  | nil => intro i; rfl
  | cons a t ih =>
    intro i
    simp [finishAll, ih]

theorem expectedDone_file (oracle : Nat → AnalyzeOutcome) (i : Nat) (item : BatchItem) :
    (expectedDone oracle i item).file = item.file := by
  cases ho : oracle i <;> simp [expectedDone, ho]

theorem finishAll_files (oracle : Nat → AnalyzeOutcome) :
    ∀ (l : List BatchItem) (i : Nat),
      (finishAll oracle i l).map (fun it => it.file) = l.map fun it => it.file := by
  intro l
  induction l with
  | nil => intro i; rfl
  | cons a t ih =>
    intro i
    simp [finishAll, expectedDone_file, ih]

theorem finishAll_terminal (oracle : Nat → AnalyzeOutcome) :
    ∀ (l : List BatchItem) (i : Nat), ∀ it ∈ finishAll oracle i l,
      it.status = AnalysisStatus.completed ∨ it.status = AnalysisStatus.error := by
  intro l
  induction l with
  | nil =>
    intro i it hit
    simp [finishAll] at hit
  | cons a t ih =>
    intro i it hit
    simp only [finishAll, List.mem_cons] at hit
    rcases hit with rfl | hit
    · cases ho : oracle i <;> simp [expectedDone, ho]
    · exact ih (i+1) it hit

/-- When no outcome in range is the credential abort, the loop finishes
every remaining item, both list states agree, and one call per item was
issued, in order. -/
theorem specRun_no_abort (oracle : Nat → AnalyzeOutcome) :
    ∀ (rest : List BatchItem) (i : Nat) (done : List BatchItem),
    (∀ t, t < rest.length → oracle (i + t) ≠ .err "API_KEY_MISSING") →
    (specRun oracle i done rest).aborted = false ∧
    (specRun oracle i done rest).batch = done ++ finishAll oracle i rest ∧
    (specRun oracle i done rest).processed = done ++ finishAll oracle i rest ∧
    (specRun oracle i done rest).calls = List.range' i rest.length := by
  intro rest
  induction rest with
  | nil =>
    intro i done h
    simp [specRun, finishAll]
  | cons item rest' ih =>
    intro i done h
    have h0 : oracle i ≠ .err "API_KEY_MISSING" := by
      have := h 0 (by simp)
      simpa using this
    have hshift : ∀ t, t < rest'.length → oracle (i + 1 + t) ≠ .err "API_KEY_MISSING" := by
      intro t ht
      have := h (t+1) (by simpa using Nat.succ_lt_succ ht)
      rw [show i + (t+1) = i + 1 + t by omega] at this
      exact this
    cases ho : oracle i with
    | ok r =>
      obtain ⟨ha, hb, hp, hc⟩ :=
        ih (i+1) (done ++ [{ item with status := .completed, result := some r }]) hshift
      refine ⟨?_, ?_, ?_, ?_⟩ <;>
        simp [specRun, ho, ha, hb, hp, hc, finishAll, expectedDone, range'_succ_eq]
    | err m =>
      have hm : m ≠ "API_KEY_MISSING" := by
        intro hm2
        exact h0 (by rw [ho, hm2])
      obtain ⟨ha, hb, hp, hc⟩ :=
        ih (i+1) (done ++ [{ item with status := .error, error := some m }]) hshift
      refine ⟨?_, ?_, ?_, ?_⟩ <;>
        simp [specRun, ho, if_neg hm, ha, hb, hp, hc, finishAll, expectedDone, range'_succ_eq]

/-- When the first credential abort in range is at relative position `t0`,
the loop stops there: the items before it are terminal, the aborting item
is left `analyzing`, the items after it are untouched, and calls were
issued exactly for positions up to `t0`. -/
theorem specRun_abort (oracle : Nat → AnalyzeOutcome) :
    ∀ (rest : List BatchItem) (t0 i : Nat) (done : List BatchItem) (ht0 : t0 < rest.length),
    oracle (i + t0) = .err "API_KEY_MISSING" →
    (∀ t, t < t0 → oracle (i + t) ≠ .err "API_KEY_MISSING") →
    (specRun oracle i done rest).aborted = true ∧
    (specRun oracle i done rest).batch =
      done ++ finishAll oracle i (rest.take t0) ++
        ({ rest.get ⟨t0, ht0⟩ with status := .analyzing } :: rest.drop (t0+1)) ∧
    (specRun oracle i done rest).processed =
      done ++ finishAll oracle i (rest.take t0) ++ rest.drop t0 ∧
    (specRun oracle i done rest).calls = List.range' i (t0+1) := by
  intro rest
  induction rest with
  | nil =>
    intro t0 i done ht0
    exact absurd ht0 (by simp)
  | cons item rest' ih =>
    intro t0 i done ht0 hk hfirst
    cases t0 with
    | zero =>
      have ho : oracle i = .err "API_KEY_MISSING" := by simpa using hk
      refine ⟨?_, ?_, ?_, ?_⟩ <;> simp [specRun, ho, finishAll]
    | succ s =>
      have h0 : oracle i ≠ .err "API_KEY_MISSING" := by
        have := hfirst 0 (Nat.succ_pos s)
        simpa using this
      have hk' : oracle (i + 1 + s) = .err "API_KEY_MISSING" := by
        rw [show i + 1 + s = i + (s+1) by omega]
        exact hk
      have hfirst' : ∀ t, t < s → oracle (i + 1 + t) ≠ .err "API_KEY_MISSING" := by
        intro t ht
        rw [show i + 1 + t = i + (t+1) by omega]
        exact hfirst (t+1) (Nat.succ_lt_succ ht)
      have hs' : s < rest'.length := by simpa using ht0
      cases ho : oracle i with
      | ok r =>
        obtain ⟨ha, hb, hp, hc⟩ :=
          ih s (i+1) (done ++ [{ item with status := .completed, result := some r }]) hs' hk' hfirst'
        refine ⟨?_, ?_, ?_, ?_⟩ <;>
          simp [specRun, ho, ha, hb, hp, hc, finishAll, expectedDone, range'_succ_eq]
      | err m =>
        have hm : m ≠ "API_KEY_MISSING" := by
          intro hm2
          exact h0 (by rw [ho, hm2])
        obtain ⟨ha, hb, hp, hc⟩ :=
          ih s (i+1) (done ++ [{ item with status := .error, error := some m }]) hs' hk' hfirst'
        refine ⟨?_, ?_, ?_, ?_⟩ <;>
          simp [specRun, ho, if_neg hm, ha, hb, hp, hc, finishAll, expectedDone, range'_succ_eq]

theorem isTerminal_not_analyzing {it : BatchItem} (h : isTerminal it = true) :
    it.status ≠ AnalysisStatus.analyzing := by
  intro hs
  simp [isTerminal, hs] at h

theorem filter_analyzing_nil (l : List BatchItem)
    (h : ∀ it ∈ l, it.status ≠ AnalysisStatus.analyzing) :
    l.filter (fun it => it.status == AnalysisStatus.analyzing) = [] := by
  induction l with
  | nil => rfl
  | cons a t ih =>
    rw [List.filter_cons]
    have ha : (a.status == AnalysisStatus.analyzing) = false := by
      simpa using h a (List.mem_cons_self a t)
    simp [ha, ih fun p hp => h p (List.mem_cons_of_mem a hp)]

theorem oneAnalyzingOrdered_of_none (s : List BatchItem)
    (h : ∀ it ∈ s, it.status ≠ AnalysisStatus.analyzing) : oneAnalyzingOrdered s := by
  constructor
  · simp [filter_analyzing_nil s h]
  · intro j t hj ht hstat
    exact absurd hstat (h _ (List.get_mem s j hj))

theorem oneAnalyzingOrdered_parts (done rest : List BatchItem) (mid : BatchItem)
    (hdone : ∀ it ∈ done, isTerminal it = true)
    (hrest : ∀ it ∈ rest, it.status ≠ AnalysisStatus.analyzing) :
    oneAnalyzingOrdered (done ++ mid :: rest) := by
  constructor
  · rw [List.filter_append, List.filter_cons,
      filter_analyzing_nil done fun it hit => isTerminal_not_analyzing (hdone it hit),
      filter_analyzing_nil rest hrest]
    split <;> simp
  · intro j t hj ht hstat
    rcases lt_trichotomy j done.length with hlt | heq | hgt
    · rw [get_append_left' done (mid :: rest) j hlt hj] at hstat
      exact absurd hstat (isTerminal_not_analyzing (hdone _ (List.get_mem done j hlt)))
    · subst heq
      have htl : t < done.length := ht
      rw [get_append_left' done (mid :: rest) t htl (Nat.lt_trans ht hj)]
      exact hdone _ (List.get_mem done t htl)
    · have hb : j - done.length - 1 < rest.length := by
        have h2 := hj
        simp only [List.length_append, List.length_cons] at h2
        omega
      rw [get_append_cons_gt done mid rest j hj hgt hb] at hstat
      exact absurd hstat (hrest _ (List.get_mem rest _ hb))

/-- Every intermediate React list state written by the loop has at most
one `analyzing` item, preceded only by terminal items. -/
theorem specRun_trace_good (oracle : Nat → AnalyzeOutcome) :
    ∀ (rest done : List BatchItem) (i : Nat),
    (∀ it ∈ done, isTerminal it = true) →
    (∀ it ∈ rest, it.status = AnalysisStatus.idle) →
    ∀ s ∈ (specRun oracle i done rest).trace, oneAnalyzingOrdered s := by
  intro rest
  induction rest with
  | nil =>
    intro done i hdone hrest s hs
    simp [specRun] at hs
  | cons item rest' ih =>
    intro done i hdone hrest s hs
    have hrest' : ∀ it ∈ rest', it.status = AnalysisStatus.idle :=
      fun it hit => hrest it (List.mem_cons_of_mem item hit)
    have hrestna : ∀ it ∈ rest', it.status ≠ AnalysisStatus.analyzing := by
      intro it hit
      simp [hrest' it hit]
    cases ho : oracle i with
    | ok r =>
      simp only [specRun, ho, List.mem_cons] at hs
      rcases hs with rfl | rfl | hs
      · exact oneAnalyzingOrdered_parts done rest' _ hdone hrestna
      · apply oneAnalyzingOrdered_of_none
        intro it hit
        simp only [List.mem_append, List.mem_cons] at hit
        rcases hit with hit | rfl | hit
        · exact isTerminal_not_analyzing (hdone it hit)
        · simp
        · exact hrestna it hit
      · refine ih (done ++ [{ item with status := .completed, result := some r }]) (i+1)
          ?_ hrest' s hs
        intro it hit
        simp only [List.mem_append, List.mem_singleton] at hit
        rcases hit with hit | rfl
        · exact hdone it hit
        · rfl
    | err m =>
      by_cases hm : m = "API_KEY_MISSING"
      · simp only [specRun, ho, if_pos hm, List.mem_singleton] at hs
        subst hs
        exact oneAnalyzingOrdered_parts done rest' _ hdone hrestna
      · simp only [specRun, ho, if_neg hm, List.mem_cons] at hs
        rcases hs with rfl | rfl | hs
        · exact oneAnalyzingOrdered_parts done rest' _ hdone hrestna
        · apply oneAnalyzingOrdered_of_none
          intro it hit
          simp only [List.mem_append, List.mem_cons] at hit
          rcases hit with hit | rfl | hit
          · exact isTerminal_not_analyzing (hdone it hit)
          · simp
          · exact hrestna it hit
        · refine ih (done ++ [{ item with status := .error, error := some m }]) (i+1)
            ?_ hrest' s hs
          intro it hit
          simp only [List.mem_append, List.mem_singleton] at hit
          rcases hit with hit | rfl
          · exact hdone it hit
          · rfl

theorem get_congr {α : Type _} {l l' : List α} (h : l = l') (j : Nat) (hj : j < l.length)
    (hj' : j < l'.length) : l.get ⟨j, hj⟩ = l'.get ⟨j, hj'⟩ := by
  subst h
  rfl

theorem processFrom_init (oracle : Nat → AnalyzeOutcome) (files : List UploadedFile)
    (hids : (files.map fun f => f.id).Nodup) :
    processFrom oracle 0 (initialItems files) (initialItems files) (initialItems files) =
      specRun oracle 0 [] (initialItems files) := by
  have h := processFrom_eq_specRun oracle (initialItems files) [] 0 rfl
    (by simpa [fileIds_initialItems] using hids)
  simpa using h

/-- A run with the guards passed and no credential abort in range: every
item finishes, one call per item in input order, and the final item list
is handed to `saveSession`. -/
theorem handleBatchAnalyze_no_abort_eq (batch0 : List BatchItem) (files : List UploadedFile)
    (job : JobContext) (oracle : Nat → AnalyzeOutcome) (wf : List HistorySession → Bool)
    (now : Nat) (slot : HistorySlot)
    (hne : files ≠ []) (hdesc : job.description ≠ "")
    (hids : (files.map fun f => f.id).Nodup)
    (hnm : ∀ t, t < files.length → oracle t ≠ .err "API_KEY_MISSING") :
    handleBatchAnalyze true batch0 files job oracle wf now slot =
      { ran := true,
        trace := initialItems files :: (specRun oracle 0 [] (initialItems files)).trace,
        finalBatch := finishAll oracle 0 (initialItems files),
        processed := finishAll oracle 0 (initialItems files),
        calls := List.range' 0 files.length,
        aborted := false,
        settingsOpened := false,
        hasApiKeyAfter := true,
        saveCalled := true,
        savedSession :=
          (saveSession wf now job (finishAll oracle 0 (initialItems files)) slot).returned,
        slot := (saveSession wf now job (finishAll oracle 0 (initialItems files)) slot).slot,
        isProcessingAfter := false } := by
  have hg2 : ¬(files.length = 0 ∨ job.description = "") := by
    rintro (h | h)
    · exact hne (List.length_eq_zero.mp h)
    · exact hdesc h
  obtain ⟨ha, hb, hp, hc⟩ := specRun_no_abort oracle (initialItems files) 0 [] (by
    intro t ht
    rw [Nat.zero_add]
    exact hnm t (by simpa [initialItems_length] using ht))
  simp only [List.nil_append] at hb hp
  simp [handleBatchAnalyze, hg2, processFrom_init oracle files hids, ha, hb, hp, hc,
    initialItems_length]
  exact ⟨hne, hdesc⟩

/-- A run with the guards passed that hits the credential abort first at
index `k`: the loop stops at `k`, the remaining items stay untouched, the
settings modal is opened, and `saveSession` is never invoked. -/
theorem handleBatchAnalyze_abort_eq (batch0 : List BatchItem) (files : List UploadedFile)
    (job : JobContext) (oracle : Nat → AnalyzeOutcome) (wf : List HistorySession → Bool)
    (now : Nat) (slot : HistorySlot) (k : Nat)
    (hne : files ≠ []) (hdesc : job.description ≠ "")
    (hids : (files.map fun f => f.id).Nodup)
    (hk2 : k < (initialItems files).length)
    (hmiss : oracle k = .err "API_KEY_MISSING")
    (hfirst : ∀ t, t < k → oracle t ≠ .err "API_KEY_MISSING") :
    handleBatchAnalyze true batch0 files job oracle wf now slot =
      { ran := true,
        trace := initialItems files :: (specRun oracle 0 [] (initialItems files)).trace,
        finalBatch := finishAll oracle 0 ((initialItems files).take k) ++
          ({ (initialItems files).get ⟨k, hk2⟩ with status := .analyzing } ::
            (initialItems files).drop (k+1)),
        processed := finishAll oracle 0 ((initialItems files).take k) ++
          (initialItems files).drop k,
        calls := List.range' 0 (k+1),
        aborted := true,
        settingsOpened := true,
        hasApiKeyAfter := false,
        saveCalled := false,
        savedSession := none,
        slot := slot,
        isProcessingAfter := false } := by
  have hg2 : ¬(files.length = 0 ∨ job.description = "") := by
    rintro (h | h)
    · exact hne (List.length_eq_zero.mp h)
    · exact hdesc h
  obtain ⟨ha, hb, hp, hc⟩ := specRun_abort oracle (initialItems files) k 0 [] hk2
    (by rw [Nat.zero_add]; exact hmiss)
    (by intro t ht; rw [Nat.zero_add]; exact hfirst t ht)
  simp only [List.nil_append] at hb hp
  simp [handleBatchAnalyze, hg2, processFrom_init oracle files hids, ha, hb, hp, hc]
  exact ⟨hne, hdesc⟩

theorem get_take' {α : Type _} (l : List α) (n j : Nat) (hj : j < (l.take n).length)
    (hj2 : j < l.length) : (l.take n).get ⟨j, hj⟩ = l.get ⟨j, hj2⟩ := by
  simp [List.get_eq_getElem, List.getElem_take]

theorem get_drop' {α : Type _} (l : List α) (n j : Nat) (hj : j < (l.drop n).length)
    (hj2 : n + j < l.length) : (l.drop n).get ⟨j, hj⟩ = l.get ⟨n + j, hj2⟩ := by
  simp [List.get_eq_getElem, List.getElem_drop]

theorem get_idx_congr {α : Type _} (l : List α) (i j : Nat) (h : i = j)
    (hi : i < l.length) (hj : j < l.length) : l.get ⟨i, hi⟩ = l.get ⟨j, hj⟩ := by
  subst h
  rfl

theorem get_append_cons_at {α : Type _} (A : List α) (x : α) (B : List α) (j : Nat)
    (hj : j < (A ++ x :: B).length) (hje : j = A.length) :
    (A ++ x :: B).get ⟨j, hj⟩ = x := by
  subst hje
  exact get_append_cons_eq A x B hj

theorem initialItems_get (files : List UploadedFile) (j : Nat)
    (hj : j < (initialItems files).length) (hj2 : j < files.length) :
    (initialItems files).get ⟨j, hj⟩ =
      { file := files.get ⟨j, hj2⟩, status := AnalysisStatus.idle, result := none,
        error := none } :=
  get_map' _ files j hj hj2

/-- C1: with the batch guards passed (credential present, a non-empty file
list, a non-empty job description) and the File-Intake invariant of unique
file ids, the run produces exactly one `BatchItem` per input file, in
input order; on normal completion every item ends `completed` or `error`;
and an item is left `idle` only when an earlier item triggered the
missing-credential abort. -/
theorem handleBatchAnalyze_one_item_per_file (batch0 : List BatchItem)
    (files : List UploadedFile) (job : JobContext) (oracle : Nat → AnalyzeOutcome)
    (wf : List HistorySession → Bool) (now : Nat) (slot : HistorySlot)
    (hne : files ≠ []) (hdesc : job.description ≠ "")
    (hids : (files.map fun f => f.id).Nodup) :
    (handleBatchAnalyze true batch0 files job oracle wf now slot).ran = true ∧
    (handleBatchAnalyze true batch0 files job oracle wf now slot).finalBatch.length =
      files.length ∧
    (∀ j (hj : j < (handleBatchAnalyze true batch0 files job oracle wf now
        slot).finalBatch.length) (hj2 : j < files.length),
      ((handleBatchAnalyze true batch0 files job oracle wf now slot).finalBatch.get
          ⟨j, hj⟩).file = files.get ⟨j, hj2⟩) ∧
    ((handleBatchAnalyze true batch0 files job oracle wf now slot).aborted = false →
      ∀ it ∈ (handleBatchAnalyze true batch0 files job oracle wf now slot).finalBatch,
        it.status = AnalysisStatus.completed ∨ it.status = AnalysisStatus.error) ∧
    (∀ j (hj : j < (handleBatchAnalyze true batch0 files job oracle wf now
        slot).finalBatch.length),
      ((handleBatchAnalyze true batch0 files job oracle wf now slot).finalBatch.get
          ⟨j, hj⟩).status = AnalysisStatus.idle →
      (handleBatchAnalyze true batch0 files job oracle wf now slot).aborted = true ∧
      ∃ k, k < j ∧ oracle k = AnalyzeOutcome.err "API_KEY_MISSING") := by
  by_cases hab : ∃ k, oracle k = AnalyzeOutcome.err "API_KEY_MISSING" ∧ k < files.length
  · -- the credential abort fires inside the batch
    obtain ⟨k1, hP1, hlt1⟩ := hab
    have hexists : ∃ k, oracle k = AnalyzeOutcome.err "API_KEY_MISSING" := ⟨k1, hP1⟩
    have hPk := Nat.find_spec hexists
    have hkmin : ∀ t, t < Nat.find hexists → oracle t ≠ AnalyzeOutcome.err "API_KEY_MISSING" :=
      fun t ht => Nat.find_min hexists ht
    have hklen : Nat.find hexists < files.length :=
      lt_of_le_of_lt (Nat.find_min' hexists hP1) hlt1
    have hk2 : Nat.find hexists < (initialItems files).length := by
      rw [initialItems_length]
      exact hklen
    have hrun := handleBatchAnalyze_abort_eq batch0 files job oracle wf now slot
      (Nat.find hexists) hne hdesc hids hk2 hPk hkmin
    have hAlen : (finishAll oracle 0 ((initialItems files).take (Nat.find hexists))).length =
        Nat.find hexists := by
      rw [finishAll_length, List.length_take]
      exact min_eq_left (le_of_lt hk2)
    refine ⟨by simp only [hrun], ?_, ?_, ?_, ?_⟩
    · simp only [hrun]
      rw [List.length_append, List.length_cons, hAlen, List.length_drop, initialItems_length]
      omega
    · rw [hrun]
      dsimp only
      intro j hj hj2
      rcases lt_trichotomy j (Nat.find hexists) with hlt | heq | hgt
      · have hjA : j < (finishAll oracle 0
            ((initialItems files).take (Nat.find hexists))).length := by
          rw [hAlen]
          exact hlt
        rw [get_append_left' _ _ j hjA hj]
        have hmapA : (finishAll oracle 0 ((initialItems files).take (Nat.find hexists))).map
            (fun it => it.file) = files.take (Nat.find hexists) := by
          rw [finishAll_files, List.map_take, initialItems_files]
        have hjm : j < ((finishAll oracle 0
            ((initialItems files).take (Nat.find hexists))).map fun it => it.file).length := by
          simpa using hjA
        have hjt : j < (files.take (Nat.find hexists)).length := by
          rw [List.length_take]
          omega
        exact ((get_map' (fun it => it.file) _ j hjm hjA).symm).trans
          ((get_congr hmapA j hjm hjt).trans (get_take' files (Nat.find hexists) j hjt hj2))
      · subst heq
        rw [get_append_cons_at _ _ _ _ hj hAlen.symm]
        dsimp only
        simp [initialItems]
      · have hb : j - (finishAll oracle 0
            ((initialItems files).take (Nat.find hexists))).length - 1 <
            ((initialItems files).drop (Nat.find hexists + 1)).length := by
          rw [hAlen, List.length_drop, initialItems_length]
          omega
        rw [get_append_cons_gt _ _ _ j hj (by rw [hAlen]; exact hgt) hb]
        have hd2 : (Nat.find hexists + 1) + (j - (finishAll oracle 0
            ((initialItems files).take (Nat.find hexists))).length - 1) <
            (initialItems files).length := by
          rw [hAlen, initialItems_length]
          omega
        rw [get_drop' (initialItems files) (Nat.find hexists + 1) _ hb hd2]
        have hjin : j < (initialItems files).length := by
          rw [initialItems_length]
          exact hj2
        rw [get_idx_congr (initialItems files) _ j (by rw [hAlen]; omega) hd2 hjin]
        rw [initialItems_get files j hjin hj2]
    · simp only [hrun]
      intro h
      exact absurd h (by simp)
    · rw [hrun]
      dsimp only
      intro j hj hidle
      refine ⟨rfl, ?_⟩
      rcases lt_trichotomy j (Nat.find hexists) with hlt | heq | hgt
      · exfalso
        have hjA : j < (finishAll oracle 0
            ((initialItems files).take (Nat.find hexists))).length := by
          rw [hAlen]
          exact hlt
        rw [get_append_left' _ _ j hjA hj] at hidle
        rcases finishAll_terminal oracle ((initialItems files).take (Nat.find hexists)) 0 _
            (List.get_mem _ j hjA) with h | h <;>
          · rw [h] at hidle
            exact absurd hidle (by decide)
      · exfalso
        subst heq
        rw [get_append_cons_at _ _ _ _ hj hAlen.symm] at hidle
        simp at hidle
      · exact ⟨Nat.find hexists, hgt, hPk⟩
  · -- no credential abort in range: the batch runs to completion
    have hnm : ∀ t, t < files.length → oracle t ≠ AnalyzeOutcome.err "API_KEY_MISSING" :=
      fun t ht hm => hab ⟨t, hm, ht⟩
    have hrun := handleBatchAnalyze_no_abort_eq batch0 files job oracle wf now slot
      hne hdesc hids hnm
    have hmap : (finishAll oracle 0 (initialItems files)).map (fun it => it.file) = files := by
      rw [finishAll_files, initialItems_files]
    refine ⟨by simp only [hrun], ?_, ?_, ?_, ?_⟩
    · simp only [hrun]
      rw [finishAll_length, initialItems_length]
    · rw [hrun]
      dsimp only
      intro j hj hj2
      have hjm : j < ((finishAll oracle 0 (initialItems files)).map fun it => it.file).length := by
        simpa using hj
      exact ((get_map' (fun it => it.file) _ j hjm hj).symm).trans (get_congr hmap j hjm hj2)
    · simp only [hrun]
      intro _ it hit
      exact finishAll_terminal oracle (initialItems files) 0 it hit
    · rw [hrun]
      dsimp only
      intro j hj hidle
      exfalso
      rcases finishAll_terminal oracle (initialItems files) 0 _
          (List.get_mem _ j hj) with h | h <;>
        · rw [h] at hidle
          exact absurd hidle (by decide)

theorem handleBatchAnalyze_one_item_per_file_witness :
    (handleBatchAnalyze true [] exFiles2 exJob orcOk wfNever 5
      HistorySlot.absent).finalBatch.length = 2 := by
  have h := handleBatchAnalyze_one_item_per_file [] exFiles2 exJob orcOk wfNever 5
    HistorySlot.absent (by decide) (by decide) (by decide)
  exact h.2.1

/-- C2: if the analysis of item `k` fails with the missing-credential
error (and no earlier item did), the run aborts: every item after `k`
stays `idle`, analysis calls were issued only for items `0..k`, the
settings modal is opened and the key flag cleared (configuration
required), `saveSession` is never invoked, and the history slot is
untouched. -/
theorem handleBatchAnalyze_missing_credential (batch0 : List BatchItem)
    (files : List UploadedFile) (job : JobContext) (oracle : Nat → AnalyzeOutcome)
    (wf : List HistorySession → Bool) (now : Nat) (slot : HistorySlot) (k : Nat)
    (hne : files ≠ []) (hdesc : job.description ≠ "")
    (hids : (files.map fun f => f.id).Nodup)
    (hk : k < files.length)
    (hmiss : oracle k = AnalyzeOutcome.err "API_KEY_MISSING")
    (hfirst : ∀ t, t < k → oracle t ≠ AnalyzeOutcome.err "API_KEY_MISSING") :
    (handleBatchAnalyze true batch0 files job oracle wf now slot).aborted = true ∧
    (∀ j (hj : j < (handleBatchAnalyze true batch0 files job oracle wf now
        slot).finalBatch.length), k < j →
      ((handleBatchAnalyze true batch0 files job oracle wf now slot).finalBatch.get
          ⟨j, hj⟩).status = AnalysisStatus.idle) ∧
    (handleBatchAnalyze true batch0 files job oracle wf now slot).calls =
      List.range' 0 (k+1) ∧
    (handleBatchAnalyze true batch0 files job oracle wf now slot).settingsOpened = true ∧
    (handleBatchAnalyze true batch0 files job oracle wf now slot).hasApiKeyAfter = false ∧
    (handleBatchAnalyze true batch0 files job oracle wf now slot).saveCalled = false ∧
    (handleBatchAnalyze true batch0 files job oracle wf now slot).savedSession = none ∧
    (handleBatchAnalyze true batch0 files job oracle wf now slot).slot = slot ∧
    (handleBatchAnalyze true batch0 files job oracle wf now slot).isProcessingAfter = false := by
  have hk2 : k < (initialItems files).length := by
    rw [initialItems_length]
    exact hk
  have hrun := handleBatchAnalyze_abort_eq batch0 files job oracle wf now slot k
    hne hdesc hids hk2 hmiss hfirst
  have hAlen : (finishAll oracle 0 ((initialItems files).take k)).length = k := by
    rw [finishAll_length, List.length_take]
    exact min_eq_left (le_of_lt hk2)
  refine ⟨by simp only [hrun], ?_, by simp only [hrun], by simp only [hrun],
    by simp only [hrun], by simp only [hrun], by simp only [hrun], by simp only [hrun],
    by simp only [hrun]⟩
  rw [hrun]
  dsimp only
  intro j hj hgt
  have hjtot : j < (finishAll oracle 0 ((initialItems files).take k)).length + 1 +
      ((initialItems files).drop (k+1)).length := by
    have h2 := hj
    rw [List.length_append, List.length_cons] at h2
    omega
  have hb : j - (finishAll oracle 0 ((initialItems files).take k)).length - 1 <
      ((initialItems files).drop (k+1)).length := by
    rw [hAlen]
    rw [hAlen] at hjtot
    omega
  rw [get_append_cons_gt _ _ _ j hj (by rw [hAlen]; exact hgt) hb]
  exact initialItems_idle files _ (List.drop_subset _ _ (List.get_mem _ _ hb))

theorem handleBatchAnalyze_missing_credential_witness :
    (handleBatchAnalyze true [] exFiles3 exJob orcMiss1 wfNever 5
      HistorySlot.absent).aborted = true ∧
    (handleBatchAnalyze true [] exFiles3 exJob orcMiss1 wfNever 5
      HistorySlot.absent).saveCalled = false := by
  have h := handleBatchAnalyze_missing_credential [] exFiles3 exJob orcMiss1 wfNever 5
    HistorySlot.absent 1 (by decide) (by decide) (by decide) (by decide) (by decide)
    (by intro t ht
        have ht0 : t = 0 := by omega
        subst ht0
        decide)
  exact ⟨h.1, h.2.2.2.2.2.1⟩

/-- C9: throughout any run, every observable `batchItems` state has at
most one item in status `analyzing`, and an `analyzing` item is preceded
only by terminal items — item `k+1` is never set to `analyzing` before
item `k` reached `completed`/`error` (or the run aborted, after which no
further states are written). -/
theorem handleBatchAnalyze_sequential (hasApiKey : Bool) (batch0 : List BatchItem)
    (files : List UploadedFile) (job : JobContext) (oracle : Nat → AnalyzeOutcome)
    (wf : List HistorySession → Bool) (now : Nat) (slot : HistorySlot)
    (hids : (files.map fun f => f.id).Nodup) :
    ∀ s ∈ (handleBatchAnalyze hasApiKey batch0 files job oracle wf now slot).trace,
      oneAnalyzingOrdered s := by
  intro s hs
  cases hasApiKey with
  | false => simp [handleBatchAnalyze] at hs
  | true =>
    by_cases hg2 : files.length = 0 ∨ job.description = ""
    · simp only [handleBatchAnalyze] at hs
      rw [if_neg (by simp), if_pos hg2] at hs
      simp at hs
    · simp only [handleBatchAnalyze, processFrom_init oracle files hids] at hs
      rw [if_neg (by simp), if_neg hg2] at hs
      cases habort : (specRun oracle 0 [] (initialItems files)).aborted with
      | false =>
        simp [habort] at hs
        rcases hs with rfl | hs
        · refine oneAnalyzingOrdered_of_none _ fun it hit => ?_
          simp [initialItems_idle files it hit]
        · exact specRun_trace_good oracle (initialItems files) [] 0
            (by intro it hit; simp at hit) (initialItems_idle files) s hs
      | true =>
        simp [habort] at hs
        rcases hs with rfl | hs
        · refine oneAnalyzingOrdered_of_none _ fun it hit => ?_
          simp [initialItems_idle files it hit]
        · exact specRun_trace_good oracle (initialItems files) [] 0
            (by intro it hit; simp at hit) (initialItems_idle files) s hs

theorem handleBatchAnalyze_sequential_witness :
    oneAnalyzingOrdered (initialItems exFiles2) := by
  have h := handleBatchAnalyze_sequential true [] exFiles2 exJob orcOk wfNever 5
    HistorySlot.absent (by decide)
  exact h (initialItems exFiles2) (by decide)

/-- C7 counterexample: the claim as stated fails when no API credential is
configured — `getAIClient()` throws `API_KEY_MISSING` before the text-kind
passthrough is reached, so a text-kind file does not get its content
returned (though still zero provider requests are issued). -/
theorem extractRawText_missing_key_counterexample :
    exTextFile.type = FileType.text ∧
    (extractResumeRawText none none provNone exTextFile).result =
      Except.error "API_KEY_MISSING" ∧
    (extractResumeRawText none none provNone exTextFile).result ≠
      Except.ok exTextFile.content ∧
    (extractResumeRawText none none provNone exTextFile).requests = [] := by
  refine ⟨rfl, rfl, ?_, rfl⟩
  intro h
  simp [extractResumeRawText] at h

/-- C7 (amended): with an API credential configured,
`extractResumeRawText` on a text-kind file returns the file's content
unchanged and issues zero provider requests; with no credential it fails
with `API_KEY_MISSING` before issuing any provider request (still zero
requests). -/
theorem extractRawText_text_passthrough (key : String) (storedTemp : Option (Option ℚ))
    (provider : List RequestPart → Option ℚ → Except String (Option String))
    (file : UploadedFile) (ht : file.type = FileType.text) :
    (extractResumeRawText (some key) storedTemp provider file).result =
      Except.ok file.content ∧
    (extractResumeRawText (some key) storedTemp provider file).requests = [] ∧
    (extractResumeRawText none storedTemp provider file).result =
      Except.error "API_KEY_MISSING" ∧
    (extractResumeRawText none storedTemp provider file).requests = [] := by
  refine ⟨?_, ?_, rfl, rfl⟩ <;> simp [extractResumeRawText, ht]

theorem extractRawText_text_passthrough_witness :
    (extractResumeRawText (some "user-key") none provNone exTextFile).result =
      Except.ok exTextFile.content :=
  (extractRawText_text_passthrough "user-key" none provNone exTextFile rfl).1

/-- C8 (code behaviour at the failing input): a non-empty stored
temperature string that `parseFloat` maps to `NaN` (e.g. "abc") passes the
truthiness test, and `Math.max(0, Math.min(1, NaN))` evaluates to `NaN`:
the value used for the request is neither a number in `[0, 1]` nor the
0.4 default the code's own comment promises for invalid values. -/
theorem getTemperature_nan_unclamped :
    getTemperature (some none) = none ∧
    ¬ inUnit (getTemperature (some none)) ∧
    getTemperature (some none) ≠ getTemperature none := by
  refine ⟨rfl, ?_, by simp [getTemperature, jsMax, jsMin]⟩
  rintro ⟨q, hq, -, -⟩
  simp [getTemperature, jsMax, jsMin] at hq

/-- Supporting fact (not itself a claim): the write path does clamp — a
numeric slider input is clamped into `[0, 1]`, and the concrete inputs 1.7
and -0.3 are persisted as 1.0 and 0.0 by `handleSave`. -/
theorem temperature_write_clamped (current v : ℚ) :
    0 ≤ handleTemperatureChange current (some v) ∧
    handleTemperatureChange current (some v) ≤ 1 ∧
    persistTemperature (handleTemperatureChange current (some 1.7)) = 1 ∧
    persistTemperature (handleTemperatureChange current (some (-0.3))) = 0 := by
  refine ⟨le_max_left 0 _, max_le (by norm_num) (min_le_left 1 v), ?_, ?_⟩ <;>
    · show toFixed1 (max 0 (min 1 _)) = _
      rw [show ∀ q : ℚ, toFixed1 q = (Int.floor (10 * q + 1/2) : ℚ) / 10 from fun q => rfl]
      norm_num [min_def, max_def]

end ResumeAI
